import Mathlib

/-!
Verification of the genomic variant filter/query core ("reev" scaffold).

The repository ships a README, and a Next.js UI (`ui/app/variants/page.tsx`,
`ui/app/page.tsx`); the back-end components (Record Normalizer, Partitioned
Columnar Writer, Search Index Builder, Filter Expression Compiler, Query
Execution Service, Facet Aggregator, Detail/Export Resolver) are specified in
`spec.md` but their code is not part of the source tree.  Those components are
therefore modelled here directly from the specification text (each such
definition is marked `Modelled from the spec:`), while the UI request-building
and response-handling logic is translated from `ui/app/variants/page.tsx`.
-/

/-! ## Data model (spec §3) -/

/-- Modelled from the spec: a Consequence Annotation, child of a Variant
Record — gene symbol, consequence type, predicted impact class and transcript
identifier (missing back-end code: Record Normalizer output shape). -/
structure CsqEntry where
  symbol : String
  consequence : String
  impact : String
  transcript : String
  deriving DecidableEq, Repr

/-- Modelled from the spec: a normalized Variant Record — identity
`(project_id, chrom, pos, ref, alt)`, calendar month used for partitioning,
flattened consequence entries and project-scoped metadata (missing
back-end code: canonical internal record representation). -/
structure VariantRecord where
  projectId : String
  chrom : String
  pos : Nat
  ref : String
  alt : String
  yearMonth : String
  csq : List CsqEntry
  meta : List (String × String)
  deriving DecidableEq, Repr

/-- Type of an indexable field: keyword (string valued) or numeric. -/
inductive FieldType where
  | keyword
  | numeric
  deriving DecidableEq, Repr

/-- A concrete value a record exposes for a field. -/
inductive FieldValue where
  | fvStr (s : String)
  | fvNum (n : Nat)
  deriving DecidableEq, Repr

/-- Modelled from the spec: the static whitelist of indexable fields and
their types (missing back-end code: the explicit static field-configuration
table of spec §9); `none` means the field is not indexable. -/
def fieldType (f : String) : Option FieldType :=
  if f = "chrom" then some .keyword
  else if f = "ref" then some .keyword
  else if f = "alt" then some .keyword
  else if f = "csq.symbol" then some .keyword
  else if f = "csq.consequence" then some .keyword
  else if f = "csq.impact" then some .keyword
  else if f = "csq.transcript" then some .keyword
  else if f = "pos" then some .numeric
  else none

/-- Modelled from the spec: the (possibly multi-valued) field projection of a
Variant Record used both by the index documents and the columnar predicate
(missing back-end code: field addressing over the flattened record). -/
def VariantRecord.fieldValues (r : VariantRecord) (f : String) : List FieldValue :=
  if f = "chrom" then [.fvStr r.chrom]
  else if f = "ref" then [.fvStr r.ref]
  else if f = "alt" then [.fvStr r.alt]
  else if f = "csq.symbol" then r.csq.map (fun c => .fvStr c.symbol)
  else if f = "csq.consequence" then r.csq.map (fun c => .fvStr c.consequence)
  else if f = "csq.impact" then r.csq.map (fun c => .fvStr c.impact)
  else if f = "csq.transcript" then r.csq.map (fun c => .fvStr c.transcript)
  else if f = "pos" then [.fvNum r.pos]
  else []

/-! ## Filter trees (spec §3, §4.4) -/

/-- Boolean combinator of a Filter Group. -/
inductive BoolOp where
  | andOp
  | orOp
  deriving DecidableEq, Repr

/-- Wire-level value carried by a Filter Clause: a term string, a numeric
range, or no value (for the `exists` operator). -/
inductive FilterValue where
  | wstr (s : String)
  | wrange (lo hi : Nat)
  | wnull
  deriving DecidableEq, Repr

/-- Modelled from the spec: a Filter Clause leaf — (field name, operator,
value); the operator is one of the fixed set `term`, `range`, `exists`. -/
structure FilterClause where
  field : String
  op : String
  value : FilterValue
  deriving DecidableEq, Repr

/-- Modelled from the spec: a Filter Group — boolean combinator, ordered
clauses, ordered nested groups (missing back-end code: recursive filter
tree). -/
inductive FilterGroup where
  | mk (op : BoolOp) (clauses : List FilterClause) (groups : List FilterGroup)

mutual

/-- Depth of a filter tree (a bare group has depth 1). -/
def FilterGroup.depth : FilterGroup → Nat
  | .mk _ _ gs => 1 + depthList gs

/-- Maximum depth over a list of subgroups. -/
def depthList : List FilterGroup → Nat
  | [] => 0
  | g :: gs => max g.depth (depthList gs)

end

mutual

/-- All clauses of a filter tree, in depth-first order. -/
def allClauses : FilterGroup → List FilterClause
  | .mk _ cs gs => cs ++ allClausesList gs

/-- All clauses of a list of subgroups. -/
def allClausesList : List FilterGroup → List FilterClause
  | [] => []
  | g :: gs => allClauses g ++ allClausesList gs

end

/-- Modelled from the spec: clause validation — the field must be in the
indexable whitelist and the operator must agree with the value shape and the
field type (a range operator is only valid on a numeric field, a term
operator only on a keyword field). -/
def clauseValid (c : FilterClause) : Bool :=
  match fieldType c.field with
  | none => false
  | some ft =>
    if c.op = "term" then
      match c.value, ft with
      | .wstr _, .keyword => true
      | _, _ => false
    else if c.op = "range" then
      match c.value, ft with
      | .wrange _ _, .numeric => true
      | _, _ => false
    else if c.op = "exists" then
      match c.value with
      | .wnull => true
      | _ => false
    else false

/-- First invalid clause in a clause list, if any. -/
def findInvalidClause : List FilterClause → Option FilterClause
  | [] => none
  | c :: cs => if clauseValid c then findInvalidClause cs else some c

mutual

/-- First invalid clause of a filter tree, depth-first. -/
def findInvalid : FilterGroup → Option FilterClause
  | .mk _ cs gs =>
    match findInvalidClause cs with
    | some c => some c
    | none => findInvalidList gs

/-- First invalid clause among a list of subgroups. -/
def findInvalidList : List FilterGroup → Option FilterClause
  | [] => none
  | g :: gs =>
    match findInvalid g with
    | some c => some c
    | none => findInvalidList gs

end

/-- Errors signalled by the Filter Expression Compiler (spec §4.4, §7). -/
inductive FilterError where
  | invalidFilter (c : FilterClause)
  | filterTooComplex
  deriving DecidableEq, Repr

/-- Modelled from the spec: the configured maximum filter-tree depth of
spec §4.4 (a configured constant; the concrete bound is a deployment
choice). -/
def maxFilterDepth : Nat := 8

/-- Modelled from the spec: validation of a Filter Group — depth beyond the
configured maximum is `FilterTooComplex`; otherwise the first clause with an
unknown field or an operator/value mismatch is reported as `InvalidFilter`
identifying that clause. -/
def validateGroup (g : FilterGroup) : Except FilterError Unit :=
  if maxFilterDepth < g.depth then .error .filterTooComplex
  else
    match findInvalid g with
    | some c => .error (.invalidFilter c)
    | none => .ok ()

/-! ## Filter Expression Compiler, output (a): search-index query (spec §4.4) -/

/-- Modelled from the spec: the search-engine query tree — it mirrors the
AND/OR structure of the Filter Group and maps each clause operator to the
corresponding search primitive (missing back-end code: index query
builder). -/
inductive SearchQuery where
  | matchAll
  | matchNone
  | termQuery (f : String) (v : String)
  | rangeQuery (f : String) (lo hi : Nat)
  | existsQuery (f : String)
  | boolQuery (op : BoolOp) (subs : List SearchQuery)

mutual

/-- Modelled from the spec: evaluation of a search-index query against one
record ("matches r in the index"), using the indexed field projection. -/
def SearchQuery.matches : SearchQuery → VariantRecord → Bool
  | .matchAll, _ => true
  | .matchNone, _ => false
  | .termQuery f v, r => (r.fieldValues f).any (fun w => decide (w = .fvStr v))
  | .rangeQuery f lo hi, r =>
    (r.fieldValues f).any (fun w =>
      match w with
      | .fvNum n => decide (lo ≤ n) && decide (n ≤ hi)
      | _ => false)
  | .existsQuery f, r => !(r.fieldValues f).isEmpty
  | .boolQuery .andOp subs, r => SearchQuery.matchesAll subs r
  | .boolQuery .orOp subs, r => SearchQuery.matchesAny subs r

/-- Conjunction of sub-queries (the AND bool query). -/
def SearchQuery.matchesAll : List SearchQuery → VariantRecord → Bool
  | [], _ => true
  | q :: qs, r => q.matches r && SearchQuery.matchesAll qs r

/-- Disjunction of sub-queries (the OR bool query). -/
def SearchQuery.matchesAny : List SearchQuery → VariantRecord → Bool
  | [], _ => false
  | q :: qs, r => q.matches r || SearchQuery.matchesAny qs r

end

/-- Modelled from the spec: translation of one Filter Clause to the
corresponding search primitive. -/
def clauseToQuery (c : FilterClause) : SearchQuery :=
  if c.op = "term" then
    match c.value with
    | .wstr s => .termQuery c.field s
    | _ => .matchNone
  else if c.op = "range" then
    match c.value with
    | .wrange lo hi => .rangeQuery c.field lo hi
    | _ => .matchNone
  else if c.op = "exists" then .existsQuery c.field
  else .matchNone

mutual

/-- Modelled from the spec: recursive compilation of a Filter Group into the
search-engine query tree; an empty group compiles to "match all". -/
def compileGroup : FilterGroup → SearchQuery
  | .mk _ [] [] => .matchAll
  | .mk op cs gs => .boolQuery op (cs.map clauseToQuery ++ compileGroups gs)

/-- Compilation of the nested subgroups. -/
def compileGroups : List FilterGroup → List SearchQuery
  | [] => []
  | g :: gs => compileGroup g :: compileGroups gs

end

/-! ## Filter Expression Compiler, output (b): columnar predicate (spec §4.4) -/

/-- Modelled from the spec: the columnar-predicate evaluation of one Filter
Clause directly on a Variant Record. -/
def clausePred (c : FilterClause) (r : VariantRecord) : Bool :=
  if c.op = "term" then
    match c.value with
    | .wstr s => (r.fieldValues c.field).any (fun w => decide (w = .fvStr s))
    | _ => false
  else if c.op = "range" then
    match c.value with
    | .wrange lo hi =>
      (r.fieldValues c.field).any (fun w =>
        match w with
        | .fvNum n => decide (lo ≤ n) && decide (n ≤ hi)
        | _ => false)
    | _ => false
  else if c.op = "exists" then !(r.fieldValues c.field).isEmpty
  else false

mutual

/-- Modelled from the spec: the equivalent predicate function over a Variant
Record (the columnar-scanning form of the filter); an empty group matches
every record. -/
def groupPred : FilterGroup → VariantRecord → Bool
  | .mk _ [] [], _ => true
  | .mk .andOp cs gs, r => cs.all (fun c => clausePred c r) && groupsAll gs r
  | .mk .orOp cs gs, r => cs.any (fun c => clausePred c r) || groupsAny gs r

/-- Conjunction of the nested subgroup predicates. -/
def groupsAll : List FilterGroup → VariantRecord → Bool
  | [], _ => true
  | g :: gs, r => groupPred g r && groupsAll gs r

/-- Disjunction of the nested subgroup predicates. -/
def groupsAny : List FilterGroup → VariantRecord → Bool
  | [], _ => false
  | g :: gs, r => groupPred g r || groupsAny gs r

end

/-- The pair of compiled forms produced by the Filter Expression Compiler:
the search-index query and the columnar predicate. -/
structure CompiledFilter where
  query : SearchQuery
  pred : VariantRecord → Bool

/-- Modelled from the spec: the Filter Expression Compiler — validates the
tree, then produces both the search-index query and the columnar predicate;
an absent Filter Group means "match all". -/
def compileFilter : Option FilterGroup → Except FilterError CompiledFilter
  | none => .ok ⟨.matchAll, fun _ => true⟩
  | some g =>
    match validateGroup g with
    | .error e => .error e
    | .ok _ => .ok ⟨compileGroup g, fun r => groupPred g r⟩

/-! ## Compiler equivalence lemmas -/

/-- Clause-level agreement of the two compiled forms. -/
theorem clauseToQuery_matches (c : FilterClause) (r : VariantRecord) :
    (clauseToQuery c).matches r = clausePred c r := by
  unfold clauseToQuery clausePred
  split_ifs <;> cases c.value <;> simp [SearchQuery.matches]

/-- `matchesAll` splits over list append. -/
theorem matchesAll_append (qs1 qs2 : List SearchQuery) (r : VariantRecord) :
    SearchQuery.matchesAll (qs1 ++ qs2) r
      = (SearchQuery.matchesAll qs1 r && SearchQuery.matchesAll qs2 r) := by
  induction qs1 with
  | nil => simp [SearchQuery.matchesAll]
  | cons q qs ih => simp [SearchQuery.matchesAll, ih, Bool.and_assoc]

/-- `matchesAny` splits over list append. -/
theorem matchesAny_append (qs1 qs2 : List SearchQuery) (r : VariantRecord) :
    SearchQuery.matchesAny (qs1 ++ qs2) r
      = (SearchQuery.matchesAny qs1 r || SearchQuery.matchesAny qs2 r) := by
  induction qs1 with
  | nil => simp [SearchQuery.matchesAny]
  | cons q qs ih => simp [SearchQuery.matchesAny, ih, Bool.or_assoc]

/-- Conjunction over translated clauses agrees with the clause predicates. -/
theorem matchesAll_map_clauses (cs : List FilterClause) (r : VariantRecord) :
    SearchQuery.matchesAll (cs.map clauseToQuery) r = cs.all (fun c => clausePred c r) := by
  induction cs with
  | nil => rfl
  | cons c cs ih =>
    simp only [List.map_cons, SearchQuery.matchesAll, List.all_cons, ih,
      clauseToQuery_matches]

/-- Disjunction over translated clauses agrees with the clause predicates. -/
theorem matchesAny_map_clauses (cs : List FilterClause) (r : VariantRecord) :
    SearchQuery.matchesAny (cs.map clauseToQuery) r = cs.any (fun c => clausePred c r) := by
  induction cs with
  | nil => rfl
  | cons c cs ih =>
    simp only [List.map_cons, SearchQuery.matchesAny, List.any_cons, ih,
      clauseToQuery_matches]

mutual

/-- Central equivalence (spec §8): the compiled search query matches a record
exactly when the compiled columnar predicate evaluates true on it. -/
theorem compileGroup_matches : ∀ (g : FilterGroup) (r : VariantRecord),
    (compileGroup g).matches r = groupPred g r
  | .mk op [] [], r => by cases op <;> rfl
  | .mk op (c :: cs) gs, r => by
    cases op
    · show SearchQuery.matches
        (.boolQuery .andOp ((c :: cs).map clauseToQuery ++ compileGroups gs)) r
        = ((c :: cs).all (fun c => clausePred c r) && groupsAll gs r)
      rw [SearchQuery.matches, matchesAll_append, matchesAll_map_clauses,
        compileGroups_matchesAll gs r]
    · show SearchQuery.matches
        (.boolQuery .orOp ((c :: cs).map clauseToQuery ++ compileGroups gs)) r
        = ((c :: cs).any (fun c => clausePred c r) || groupsAny gs r)
      rw [SearchQuery.matches, matchesAny_append, matchesAny_map_clauses,
        compileGroups_matchesAny gs r]
  | .mk op [] (g :: gs), r => by
    cases op
    · show SearchQuery.matches
        (.boolQuery .andOp (([] : List FilterClause).map clauseToQuery ++ compileGroups (g :: gs))) r
        = (([] : List FilterClause).all (fun c => clausePred c r) && groupsAll (g :: gs) r)
      rw [SearchQuery.matches, matchesAll_append, matchesAll_map_clauses,
        compileGroups_matchesAll (g :: gs) r]
    · show SearchQuery.matches
        (.boolQuery .orOp (([] : List FilterClause).map clauseToQuery ++ compileGroups (g :: gs))) r
        = (([] : List FilterClause).any (fun c => clausePred c r) || groupsAny (g :: gs) r)
      rw [SearchQuery.matches, matchesAny_append, matchesAny_map_clauses,
        compileGroups_matchesAny (g :: gs) r]

/-- Subgroup conjunctions agree. -/
theorem compileGroups_matchesAll : ∀ (gs : List FilterGroup) (r : VariantRecord),
    SearchQuery.matchesAll (compileGroups gs) r = groupsAll gs r
  | [], _ => rfl
  | g :: gs, r => by
    rw [compileGroups, SearchQuery.matchesAll, groupsAll,
      compileGroup_matches g r, compileGroups_matchesAll gs r]

/-- Subgroup disjunctions agree. -/
theorem compileGroups_matchesAny : ∀ (gs : List FilterGroup) (r : VariantRecord),
    SearchQuery.matchesAny (compileGroups gs) r = groupsAny gs r
  | [], _ => rfl
  | g :: gs, r => by
    rw [compileGroups, SearchQuery.matchesAny, groupsAny,
      compileGroup_matches g r, compileGroups_matchesAny gs r]

end

/-- Any successfully compiled filter has pointwise-equal query and predicate
forms. -/
theorem compiled_equiv (f : Option FilterGroup) (c : CompiledFilter)
    (hc : compileFilter f = .ok c) (r : VariantRecord) :
    c.query.matches r = c.pred r := by
  cases f with
  | none =>
    have : c = ⟨.matchAll, fun _ => true⟩ := by
      simpa [compileFilter] using hc.symm
    subst this
    rfl
  | some g =>
    simp only [compileFilter] at hc
    cases hv : validateGroup g with
    | error e =>
      rw [hv] at hc
      cases hc
    | ok u =>
      rw [hv] at hc
      cases hc
      exact compileGroup_matches g r

/-! ## Stable ordering and pagination (spec §4.5) -/

/-- Boolean string order used for stable sort keys. -/
def strLtb (a b : String) : Bool := decide (a < b)

/-- Modelled from the spec: the stable sort key comparison — coordinate order
(chrom, pos, ref, alt) — used to order result pages deterministically
(missing back-end code: Query Execution Service sort key). -/
def coordLE (a b : VariantRecord) : Bool :=
  if a.chrom = b.chrom then
    if a.pos = b.pos then
      if a.ref = b.ref then (decide (a.alt = b.alt) || strLtb a.alt b.alt)
      else strLtb a.ref b.ref
    else decide (a.pos < b.pos)
  else strLtb a.chrom b.chrom

/-- Insert an element into a list, in front of the first element it compares
at-or-below. -/
def insertLE {α : Type} (le : α → α → Bool) (x : α) : List α → List α
  | [] => [x]
  | y :: ys => if le x y then x :: y :: ys else y :: insertLE le x ys

/-- Insertion sort by a boolean comparison (the engine's deterministic
ordering pass). -/
def sortLE {α : Type} (le : α → α → Bool) : List α → List α
  | [] => []
  | x :: xs => insertLE le x (sortLE le xs)

/-- Inserting an element is a permutation of consing it. -/
theorem insertLE_perm {α : Type} (le : α → α → Bool) (x : α) (l : List α) :
    List.Perm (insertLE le x l) (x :: l) := by
  induction l with
  | nil => exact List.Perm.refl _
  | cons y ys ih =>
    unfold insertLE
    by_cases h : le x y = true
    · rw [if_pos h]
    · rw [if_neg h]
      exact (ih.cons y).trans (List.Perm.swap x y ys)

/-- Sorting permutes the input list. -/
theorem sortLE_perm {α : Type} (le : α → α → Bool) (l : List α) :
    List.Perm (sortLE le l) l := by
  induction l with
  | nil => exact List.Perm.refl _
  | cons x xs ih =>
    exact (insertLE_perm le x (sortLE le xs)).trans (ih.cons x)

/-- Number of pages needed to cover `total` records at page size `k`. -/
def numPages (total k : Nat) : Nat := (total + k - 1) / k

/-- Page `i` (0-based) of a list, at page size `k`. -/
def pageSlice {α : Type} (l : List α) (k i : Nat) : List α := (l.drop (i * k)).take k

/-- All pages of a list at page size `k`, in order. -/
def allPages {α : Type} (l : List α) (k : Nat) : List (List α) :=
  (List.range (numPages l.length k)).map (fun i => pageSlice l k i)

/-- An empty result set has no pages. -/
theorem numPages_zero (k : Nat) (hk : 0 < k) : numPages 0 k = 0 := by
  unfold numPages
  simp
  exact Nat.div_eq_of_lt (Nat.sub_lt hk Nat.one_pos)

/-- Peeling one page off a non-empty result set. -/
theorem numPages_succ (n k : Nat) (hk : 0 < k) (hn : 0 < n) :
    numPages n k = 1 + numPages (n - k) k := by
  unfold numPages
  have h1 : n + k - 1 = (n - 1) + k := by omega
  rw [h1, Nat.add_div_right _ hk]
  rcases le_or_lt k n with h | h
  · have h2 : n - k + k - 1 = n - 1 := by omega
    rw [h2, Nat.add_comm]
  · have h2 : n - k = 0 := by omega
    rw [h2]
    have h3 : (0 + k - 1) / k = 0 := Nat.div_eq_of_lt (by omega)
    rw [h3]
    have h4 : n - 1 < k := by omega
    rw [Nat.div_eq_of_lt h4]

/-- Concatenating all pages of a list reproduces the list: pages never repeat
nor skip an element. -/
theorem join_allPages {α : Type} (k : Nat) (hk : 0 < k) (l : List α) :
    (allPages l k).flatten = l := by
  rcases Nat.eq_zero_or_pos l.length with hlen | hlen
  · have hnil : l = [] := List.length_eq_zero.mp hlen
    subst hnil
    simp [allPages, numPages_zero k hk]
  · have h1 : numPages l.length k = 1 + numPages (l.drop k).length k := by
      rw [List.length_drop]
      exact numPages_succ l.length k hk hlen
    have hrange : List.range (1 + numPages (l.drop k).length k)
        = 0 :: (List.range (numPages (l.drop k).length k)).map Nat.succ := by
      rw [Nat.add_comm]
      exact List.range_succ_eq_map _
    have hslice : ∀ i, pageSlice l k (Nat.succ i) = pageSlice (l.drop k) k i := by
      intro i
      have hmul : Nat.succ i * k = k + i * k := by
        rw [Nat.succ_mul, Nat.add_comm]
      unfold pageSlice
      rw [hmul, List.drop_drop]
    have hrec : (allPages (l.drop k) k).flatten = l.drop k :=
      join_allPages k hk (l.drop k)
    unfold allPages
    rw [h1, hrange]
    simp only [List.map_cons, List.map_map, List.flatten_cons]
    have hmap : ((fun i => pageSlice l k i) ∘ Nat.succ) = (fun i => pageSlice (l.drop k) k i) := by
      funext i
      exact hslice i
    rw [hmap]
    unfold allPages at hrec
    rw [hrec]
    have h0 : pageSlice l k 0 = l.take k := by
      unfold pageSlice
      simp
    rw [h0, List.take_append_drop]
termination_by l.length
decreasing_by
  rw [List.length_drop]
  exact Nat.sub_lt hlen hk

/-! ## Query Execution Service (spec §4.5) -/

/-- Modelled from the spec: a Query Request — project scope, optional Filter
Group and pagination parameters (page size and 0-based page index standing
for the offset/cursor). -/
structure QueryRequest where
  projectId : String
  filters : Option FilterGroup
  pageSize : Nat
  pageIndex : Nat

/-- Modelled from the spec: a Query Result Page — the ordered matching
summaries of one page plus the total-match count. -/
structure QueryResultPage where
  items : List VariantRecord
  total : Nat
  deriving DecidableEq, Repr

/-- Modelled from the spec: the configured maximum page size; an
over-large request is clamped to it, not rejected. -/
def maxPageSize : Nat := 500

/-- Effective page size after clamping. -/
def effPageSize (n : Nat) : Nat := min n maxPageSize

/-- Modelled from the spec: the set of records of the project scope matched
by a compiled search query — the Query Execution Service relies solely on the
index for matching. -/
def queryMatches (ds : List VariantRecord) (pid : String) (q : SearchQuery) :
    List VariantRecord :=
  ds.filter (fun r => decide (r.projectId = pid) && q.matches r)

/-- The matching records in stable coordinate order. -/
def orderedMatches (ds : List VariantRecord) (pid : String) (q : SearchQuery) :
    List VariantRecord :=
  sortLE coordLE (queryMatches ds pid q)

/-- Modelled from the spec: `query(QueryRequest) -> QueryResultPage` —
compiles the filter once, matches against the project index, orders by the
stable sort key, pages deterministically and reports the total-match count
(missing back-end code: Query Execution Service). -/
def queryExec (ds : List VariantRecord) (req : QueryRequest) :
    Except FilterError QueryResultPage :=
  match compileFilter req.filters with
  | .error e => .error e
  | .ok c =>
    .ok ⟨pageSlice (orderedMatches ds req.projectId c.query)
           (effPageSize req.pageSize) req.pageIndex,
         (queryMatches ds req.projectId c.query).length⟩

/-! ## Detail/Export Resolver (spec §4.7) -/

/-- Modelled from the spec: `export(QueryRequest)` — compiles the same filter
into its columnar-predicate form and streams every matching row from the
columnar scan, bypassing pagination (missing back-end code: Detail/Export
Resolver). -/
def exportRows (ds : List VariantRecord) (pid : String) (f : Option FilterGroup) :
    Except FilterError (List VariantRecord) :=
  match compileFilter f with
  | .error e => .error e
  | .ok c => .ok (ds.filter (fun r => decide (r.projectId = pid) && c.pred r))

/-! ## Facet Aggregator (spec §4.6) -/

/-- String rendering of the field values used for keyword faceting. -/
def fieldStrings (r : VariantRecord) (f : String) : List String :=
  (r.fieldValues f).filterMap (fun w =>
    match w with
    | .fvStr s => some s
    | .fvNum _ => none)

/-- Modelled from the spec: the facet value of a record for a field (the
record's keyword value for that field, when present). -/
def facetValue (f : String) (r : VariantRecord) : Option String :=
  (fieldStrings r f).head?

/-- Modelled from the spec: only whitelisted keyword fields are
facet-eligible. -/
def facetEligible (f : String) : Bool := decide (fieldType f = some .keyword)

/-- Facet pair ordering: descending by count, ties broken by value order. -/
def facetPairLE (a b : String × Nat) : Bool :=
  decide (b.2 < a.2) || (decide (a.2 = b.2) && (decide (a.1 = b.1) || strLtb a.1 b.1))

/-- Value-frequency pairs over the facet values of the matching records. -/
def facetCounts (vals : List String) : List (String × Nat) :=
  vals.dedup.map (fun v => (v, vals.count v))

/-- Modelled from the spec: `facet(field, scope)` — computed over the same
compiled filter as the query path, scoped to the index, ordered by
descending count with deterministic tie-break (missing back-end code:
Facet Aggregator). -/
def facetRun (ds : List VariantRecord) (pid : String) (scope : Option FilterGroup)
    (f : String) : Except FilterError (List (String × Nat)) :=
  match compileFilter scope with
  | .error e => .error e
  | .ok c =>
    if facetEligible f then
      .ok (sortLE facetPairLE
        (facetCounts ((queryMatches ds pid c.query).filterMap (facetValue f))))
    else .error (.invalidFilter ⟨f, "facet", .wnull⟩)

/-! ## Record Normalizer (spec §4.1) -/

/-- Modelled from the spec: one raw annotation block; fields may be missing
(malformed blocks are dropped from the record, not fatal to it). -/
structure RawCsqEntry where
  symbol : Option String
  consequence : Option String
  impact : Option String
  transcript : Option String
  deriving DecidableEq, Repr

/-- Modelled from the spec: one raw annotated variant entry — coordinates and
alleles may fail to parse, in which case the whole record is skipped. -/
structure RawRecord where
  chrom : Option String
  pos : Option Nat
  ref : Option String
  alt : Option String
  yearMonth : String
  rawCsq : List RawCsqEntry
  meta : List (String × String)
  deriving DecidableEq, Repr

/-- Modelled from the spec: parsing one annotation block; unknown or
malformed blocks yield `none` and are dropped from the record. -/
def parseCsqEntry (a : RawCsqEntry) : Option CsqEntry :=
  match a.symbol, a.consequence, a.impact, a.transcript with
  | some s, some c, some i, some t => some ⟨s, c, i, t⟩
  | _, _, _, _ => none

/-- Modelled from the spec: the Record Normalizer — a record with no
parseable coordinates or alleles is rejected (`none`); otherwise its
annotation blocks are flattened, dropping the malformed ones (missing
back-end code: Record Normalizer). -/
def normalizeRecord (pid : String) (raw : RawRecord) : Option VariantRecord :=
  match raw.chrom, raw.pos, raw.ref, raw.alt with
  | some ch, some p, some rf, some al =>
    some { projectId := pid, chrom := ch, pos := p, ref := rf, alt := al,
           yearMonth := raw.yearMonth,
           csq := raw.rawCsq.filterMap parseCsqEntry,
           meta := raw.meta }
  | _, _, _, _ => none

/-- The normalized stream of a batch: all parseable records, in order. -/
def normalizedBatch (pid : String) (batch : List RawRecord) : List VariantRecord :=
  batch.filterMap (normalizeRecord pid)

/-- Per-batch count of ingested records. -/
def ingestedCount (pid : String) (batch : List RawRecord) : Nat :=
  (normalizedBatch pid batch).length

/-- Per-batch count of skipped (malformed) records. -/
def skippedCount (pid : String) (batch : List RawRecord) : Nat :=
  (batch.filter (fun raw => (normalizeRecord pid raw).isNone)).length

/-! ## Partitioned Columnar Writer and Search Index Builder (spec §4.2, §4.3) -/

/-- Record identity: keyed by project, coordinates and alleles. -/
def identityKey (r : VariantRecord) : String × String × Nat × String × String :=
  (r.projectId, r.chrom, r.pos, r.ref, r.alt)

/-- Partition key: (project, chromosome, calendar month). -/
def partitionKey (r : VariantRecord) : String × String × String :=
  (r.projectId, r.chrom, r.yearMonth)

/-- Two records with the same identity. -/
def sameIdentity (a b : VariantRecord) : Bool := decide (identityKey a = identityKey b)

/-- Last-write-wins upsert of one record into partition content, keyed by
identity. -/
def upsertRecord : List VariantRecord → VariantRecord → List VariantRecord
  | [], r => [r]
  | x :: xs, r => if sameIdentity x r then r :: xs else x :: upsertRecord xs r

/-- Modelled from the spec: last-write-wins deduplication of one batch by
identity (coordinates+alleles), in batch order. -/
def dedupeLastWins (rs : List VariantRecord) : List VariantRecord :=
  rs.foldl upsertRecord []

/-- Whether some record in `l` has the identity of `r`. -/
def hasIdentity (l : List VariantRecord) (r : VariantRecord) : Bool :=
  l.any (fun x => sameIdentity x r)

/-- Modelled from the spec: the keyword-indexed projection of one Variant
Record (its Index Document). -/
structure IndexDoc where
  projectId : String
  chrom : String
  pos : Nat
  ref : String
  alt : String
  symbols : List String
  consequences : List String
  impacts : List String
  deriving DecidableEq, Repr

/-- Projection of a record into its index document. -/
def toIndexDoc (r : VariantRecord) : IndexDoc :=
  { projectId := r.projectId, chrom := r.chrom, pos := r.pos, ref := r.ref,
    alt := r.alt,
    symbols := r.csq.map (fun c => c.symbol),
    consequences := r.csq.map (fun c => c.consequence),
    impacts := r.csq.map (fun c => c.impact) }

/-- Identity address of an index document. -/
def IndexDoc.docId (d : IndexDoc) : String × String × Nat × String × String :=
  (d.projectId, d.chrom, d.pos, d.ref, d.alt)

/-- Per-project index naming convention. -/
def indexName (pid : String) : String := "variants-" ++ pid

/-- The index documents produced by one ingestion pass over a batch. -/
def ingestDocs (pid : String) (batch : List RawRecord) : List IndexDoc :=
  (normalizedBatch pid batch).map toIndexDoc

/-- The last document of the batch addressed at `key` (upsert by identity
means the last write for an identity wins). -/
def lastDocFor (pid : String) (batch : List RawRecord)
    (key : String × (String × String × Nat × String × String)) : Option IndexDoc :=
  ((ingestDocs pid batch).filter (fun d => decide ((indexName pid, d.docId) = key))).getLast?

/-- The persistent stores: columnar partitions (full content per partition
key) and the search index (one document per identity per index). -/
structure Stores where
  parts : String × String × String → List VariantRecord
  index : String × (String × String × Nat × String × String) → Option IndexDoc

/-- Modelled from the spec: one ingestion pass over a source batch — every
touched partition is atomically overwritten with the batch's deduplicated
content for that partition, and one index document per record is upserted by
identity into `variants-{project_id}` (missing back-end code: Partitioned
Columnar Writer `write` and Search Index Builder `index`). -/
def ingestStores (s : Stores) (pid : String) (batch : List RawRecord) : Stores :=
  { parts := fun k =>
      if (normalizedBatch pid batch).any (fun r => decide (partitionKey r = k)) then
        dedupeLastWins ((normalizedBatch pid batch).filter (fun r => decide (partitionKey r = k)))
      else s.parts k,
    index := fun key =>
      match lastDocFor pid batch key with
      | some d => some d
      | none => s.index key }

/-! ## Front-end request construction (src/ui/app/variants/page.tsx) -/

/-- A wire-format filter clause `{field, op, value}` as the UI sends it. -/
structure WireClause where
  field : String
  op : String
  value : String
  deriving DecidableEq, Repr

/-- The wire-format filter `{op, clauses, groups}` of the HTTP API. -/
inductive WireFilter where
  | mk (op : String) (clauses : List WireClause) (groups : List WireFilter)

mutual

/-- Conformance of a wire filter to the documented shape: the combinator is
`"AND"` or `"OR"` and every nested group conforms (clauses are `{field, op,
value}` by construction). -/
def wireConforms : WireFilter → Bool
  | .mk op _ gs => (decide (op = "AND") || decide (op = "OR")) && wireConformsList gs

/-- Conformance of the nested groups. -/
def wireConformsList : List WireFilter → Bool
  | [] => true
  | g :: gs => wireConforms g && wireConformsList gs

end

/-- The page parameters the UI sends (`page: { size: 50 }`). -/
structure WirePage where
  size : Nat
  deriving DecidableEq, Repr

/-- The JSON body `runQuery` posts to `/api/filter/query`. -/
structure QueryBody where
  project_id : String
  filters : Option WireFilter
  page : WirePage

/-- The request body built by `runQuery` in `ui/app/variants/page.tsx`: a
non-empty (truthy) gene input produces a single AND term clause on
`csq.symbol.keyword`; an empty gene input leaves `filters` undefined, which
JSON-serializes to an absent field. -/
def runQueryBody (projectId gene : String) : QueryBody :=
  { project_id := projectId,
    filters :=
      if gene = "" then none
      else some (.mk "AND" [{ field := "csq.symbol.keyword", op := "term", value := gene }] []),
    page := { size := 50 } }

/-- One displayed item (a JSON object row). -/
def UIItem : Type := List (String × String)

/-- The `items` field of a JSON response body, as JavaScript sees it:
absent, a falsy primitive, a truthy primitive, or an array. -/
inductive ItemsField where
  | absent
  | jnull
  | jbool (b : Bool)
  | jnum (n : Int)
  | jstr (s : String)
  | jarr (xs : List UIItem)

/-- JavaScript truthiness of the `items` field. -/
def itemsTruthy : ItemsField → Bool
  | .absent => false
  | .jnull => false
  | .jbool b => b
  | .jnum n => decide (n ≠ 0)
  | .jstr s => decide (s ≠ "")
  | .jarr _ => true

/-- The list `runQuery` passes to `setItems`: `data.items || []` — the items
array when it is a truthy value, the empty list otherwise (always a total
computation; no exception path). -/
def displayedItems (j : ItemsField) : List UIItem :=
  if itemsTruthy j then
    match j with
    | .jarr xs => xs
    | _ => []
  else []

/-! ## Validation lemmas -/

/-- If no invalid clause is found in a clause list, every clause is valid. -/
theorem findInvalidClause_none (cs : List FilterClause)
    (h : findInvalidClause cs = none) : ∀ c ∈ cs, clauseValid c = true := by
  induction cs with
  | nil => intro c hc; cases hc
  | cons c0 cs ih =>
    intro c hc
    unfold findInvalidClause at h
    by_cases hv : clauseValid c0 = true
    · rw [if_pos hv] at h
      rcases List.mem_cons.mp hc with h1 | h1
      · subst h1; exact hv
      · exact ih h c h1
    · rw [if_neg hv] at h
      cases h

/-- A found clause is a member of the list and invalid. -/
theorem findInvalidClause_some (cs : List FilterClause) (c : FilterClause)
    (h : findInvalidClause cs = some c) : c ∈ cs ∧ clauseValid c = false := by
  induction cs with
  | nil => cases h
  | cons c0 cs ih =>
    unfold findInvalidClause at h
    by_cases hv : clauseValid c0 = true
    · rw [if_pos hv] at h
      rcases ih h with ⟨h1, h2⟩
      exact ⟨List.mem_cons_of_mem c0 h1, h2⟩
    · rw [if_neg hv] at h
      cases h
      exact ⟨List.mem_cons_self _ _, Bool.eq_false_iff.mpr hv⟩

mutual

/-- If validation finds no invalid clause in a tree, every clause of the tree
is valid. -/
theorem findInvalid_none : ∀ (g : FilterGroup), findInvalid g = none →
    ∀ c ∈ allClauses g, clauseValid c = true
  | .mk op cs gs => by
    intro h c hc
    unfold findInvalid at h
    cases hfc : findInvalidClause cs with
    | some c1 => rw [hfc] at h; cases h
    | none =>
      rw [hfc] at h
      unfold allClauses at hc
      rcases List.mem_append.mp hc with h1 | h1
      · exact findInvalidClause_none cs hfc c h1
      · exact findInvalidList_none gs h c h1

/-- List version of `findInvalid_none`. -/
theorem findInvalidList_none : ∀ (gs : List FilterGroup), findInvalidList gs = none →
    ∀ c ∈ allClausesList gs, clauseValid c = true
  | [] => by intro h c hc; cases hc
  | g :: gs => by
    intro h c hc
    unfold findInvalidList at h
    cases hfg : findInvalid g with
    | some c1 => rw [hfg] at h; cases h
    | none =>
      rw [hfg] at h
      unfold allClausesList at hc
      rcases List.mem_append.mp hc with h1 | h1
      · exact findInvalid_none g hfg c h1
      · exact findInvalidList_none gs h c h1

end

mutual

/-- A clause found invalid in a tree is a member of the tree and invalid. -/
theorem findInvalid_some : ∀ (g : FilterGroup) (c : FilterClause),
    findInvalid g = some c → c ∈ allClauses g ∧ clauseValid c = false
  | .mk op cs gs, c => by
    intro h
    unfold findInvalid at h
    unfold allClauses
    cases hfc : findInvalidClause cs with
    | some c1 =>
      rw [hfc] at h
      cases h
      rcases findInvalidClause_some cs c hfc with ⟨h1, h2⟩
      exact ⟨List.mem_append_left _ h1, h2⟩
    | none =>
      rw [hfc] at h
      rcases findInvalidList_some gs c h with ⟨h1, h2⟩
      exact ⟨List.mem_append_right _ h1, h2⟩

/-- List version of `findInvalid_some`. -/
theorem findInvalidList_some : ∀ (gs : List FilterGroup) (c : FilterClause),
    findInvalidList gs = some c → c ∈ allClausesList gs ∧ clauseValid c = false
  | [], c => by intro h; cases h
  | g :: gs, c => by
    intro h
    unfold findInvalidList at h
    unfold allClausesList
    cases hfg : findInvalid g with
    | some c1 =>
      rw [hfg] at h
      cases h
      rcases findInvalid_some g c hfg with ⟨h1, h2⟩
      exact ⟨List.mem_append_left _ h1, h2⟩
    | none =>
      rw [hfg] at h
      rcases findInvalidList_some gs c h with ⟨h1, h2⟩
      exact ⟨List.mem_append_right _ h1, h2⟩

end

/-! ## Counting lemmas -/

/-- Parsed plus skipped records account for the whole batch. -/
theorem length_filterMap_add_filter_isNone {α β : Type} (f : α → Option β) (l : List α) :
    (l.filterMap f).length + (l.filter (fun x => (f x).isNone)).length = l.length := by
  induction l with
  | nil => rfl
  | cons x xs ih =>
    cases hfx : f x with
    | none =>
      simp [List.filterMap_cons, List.filter_cons, hfx]
      omega
    | some y =>
      simp [List.filterMap_cons, List.filter_cons, hfx]
      omega

/-- A `filterMap` over a list where the function always succeeds keeps the
length. -/
theorem length_filterMap_of_isSome {α β : Type} (f : α → Option β) (l : List α)
    (h : ∀ x ∈ l, (f x).isSome = true) : (l.filterMap f).length = l.length := by
  induction l with
  | nil => rfl
  | cons x xs ih =>
    have hx := h x (List.mem_cons_self x xs)
    cases hfx : f x with
    | none => rw [hfx] at hx; cases hx
    | some y =>
      rw [List.filterMap_cons, hfx]
      simp only [List.length_cons]
      rw [ih (fun z hz => h z (List.mem_cons_of_mem x hz))]

/-! ## Identity-presence lemmas for last-write-wins deduplication -/

/-- Identity comparison is reflexive. -/
theorem sameIdentity_refl (r : VariantRecord) : sameIdentity r r = true := by
  simp [sameIdentity]

/-- Records with identities equal to a common one share their identity. -/
theorem sameIdentity_trans_left {x y z : VariantRecord}
    (h1 : sameIdentity x y = true) (h2 : sameIdentity x z = true) :
    sameIdentity y z = true := by
  simp only [sameIdentity, decide_eq_true_eq] at h1 h2 ⊢
  rw [← h1]
  exact h2

/-- After upserting a record, its identity is present. -/
theorem hasIdentity_upsert_self (acc : List VariantRecord) (r : VariantRecord) :
    hasIdentity (upsertRecord acc r) r = true := by
  induction acc with
  | nil => simp [upsertRecord, hasIdentity, sameIdentity_refl]
  | cons x xs ih =>
    unfold upsertRecord
    by_cases h : sameIdentity x r = true
    · rw [if_pos h]
      simp [hasIdentity, List.any_cons, sameIdentity_refl]
    · rw [if_neg h]
      simp only [hasIdentity, List.any_cons, Bool.or_eq_true]
      right
      simpa [hasIdentity] using ih

/-- Upserting preserves the presence of any identity. -/
theorem hasIdentity_upsert_mono (acc : List VariantRecord) (r z : VariantRecord)
    (h : hasIdentity acc z = true) : hasIdentity (upsertRecord acc r) z = true := by
  induction acc with
  | nil => cases h
  | cons x xs ih =>
    unfold upsertRecord
    have h' : sameIdentity x z = true ∨ hasIdentity xs z = true := by
      simpa [hasIdentity, List.any_cons] using h
    by_cases h2 : sameIdentity x r = true
    · rw [if_pos h2]
      rcases h' with h1 | h1
      · have : sameIdentity r z = true := sameIdentity_trans_left h2 h1
        simp [hasIdentity, List.any_cons, this]
      · simp only [hasIdentity, List.any_cons, Bool.or_eq_true]
        right
        simpa [hasIdentity] using h1
    · rw [if_neg h2]
      rcases h' with h1 | h1
      · simp [hasIdentity, List.any_cons, h1]
      · simp only [hasIdentity, List.any_cons, Bool.or_eq_true]
        right
        simpa [hasIdentity] using ih h1

/-- Folding a batch into partition content keeps every batch identity. -/
theorem hasIdentity_foldl (rs : List VariantRecord) (acc : List VariantRecord)
    (z : VariantRecord) (h : hasIdentity acc z = true ∨ z ∈ rs) :
    hasIdentity (rs.foldl upsertRecord acc) z = true := by
  induction rs generalizing acc with
  | nil =>
    rcases h with h | h
    · simpa using h
    · cases h
  | cons r rs ih =>
    rw [List.foldl_cons]
    rcases h with h | h
    · exact ih _ (Or.inl (hasIdentity_upsert_mono acc r z h))
    · rcases List.mem_cons.mp h with h1 | h1
      · subst h1
        exact ih _ (Or.inl (hasIdentity_upsert_self acc z))
      · exact ih _ (Or.inr h1)

/-- Every record of a batch is represented, by identity, in the deduplicated
partition content. -/
theorem hasIdentity_dedupe (rs : List VariantRecord) (z : VariantRecord) (h : z ∈ rs) :
    hasIdentity (dedupeLastWins rs) z = true :=
  hasIdentity_foldl rs [] z (Or.inr h)

/-! ## Claim theorems -/

/-- C1: Compiler equivalence — for every Filter Group F and every Variant
Record r, the search-index query compiled from F matches r if and only if
the columnar predicate compiled from F evaluates to true on r. -/
theorem compiler_equivalence (F : FilterGroup) (c : CompiledFilter)
    (r : VariantRecord) (hc : compileFilter (some F) = .ok c) :
    c.query.matches r = c.pred r :=
  compiled_equiv (some F) c hc r

/-- Witness for C1 at a concrete one-clause filter and a concrete record. -/
theorem compiler_equivalence_witness :
    compileFilter (some (FilterGroup.mk .andOp [⟨"csq.symbol", "term", .wstr "BRCA1"⟩] []))
      = .ok ⟨compileGroup (FilterGroup.mk .andOp [⟨"csq.symbol", "term", .wstr "BRCA1"⟩] []),
             fun r => groupPred (FilterGroup.mk .andOp [⟨"csq.symbol", "term", .wstr "BRCA1"⟩] []) r⟩ ∧
    (CompiledFilter.mk
        (compileGroup (FilterGroup.mk .andOp [⟨"csq.symbol", "term", .wstr "BRCA1"⟩] []))
        (fun r => groupPred (FilterGroup.mk .andOp [⟨"csq.symbol", "term", .wstr "BRCA1"⟩] []) r)).query.matches
      ⟨"demo", "1", 100, "A", "T", "2024-01", [⟨"BRCA1", "missense_variant", "MODERATE", "tx1"⟩], []⟩
    = (CompiledFilter.mk
        (compileGroup (FilterGroup.mk .andOp [⟨"csq.symbol", "term", .wstr "BRCA1"⟩] []))
        (fun r => groupPred (FilterGroup.mk .andOp [⟨"csq.symbol", "term", .wstr "BRCA1"⟩] []) r)).pred
      ⟨"demo", "1", 100, "A", "T", "2024-01", [⟨"BRCA1", "missense_variant", "MODERATE", "tx1"⟩], []⟩ :=
  ⟨rfl,
   compiler_equivalence (FilterGroup.mk .andOp [⟨"csq.symbol", "term", .wstr "BRCA1"⟩] [])
     ⟨compileGroup (FilterGroup.mk .andOp [⟨"csq.symbol", "term", .wstr "BRCA1"⟩] []),
      fun r => groupPred (FilterGroup.mk .andOp [⟨"csq.symbol", "term", .wstr "BRCA1"⟩] []) r⟩
     ⟨"demo", "1", 100, "A", "T", "2024-01", [⟨"BRCA1", "missense_variant", "MODERATE", "tx1"⟩], []⟩
     rfl⟩

/-- C3: Idempotent ingestion — ingesting the same source batch twice yields
partition content and index documents identical to ingesting it once. -/
theorem ingest_idempotent (s : Stores) (pid : String) (batch : List RawRecord) :
    ingestStores (ingestStores s pid batch) pid batch = ingestStores s pid batch := by
  have hext : ∀ (A B : Stores), A.parts = B.parts → A.index = B.index → A = B := by
    intro A B h1 h2
    cases A
    cases B
    cases h1
    cases h2
    rfl
  apply hext
  · funext k
    simp only [ingestStores]
    by_cases hc : (normalizedBatch pid batch).any (fun r => decide (partitionKey r = k)) = true
    · simp [hc]
    · simp [hc]
  · funext key
    simp only [ingestStores]
    cases hl : lastDocFor pid batch key with
    | some d => simp [hl]
    | none => simp [hl, ingestStores]

/-- C8: Absent or empty filter means match all — an absent Filter Group and
an empty Filter Group both compile successfully to forms accepting every
record, and in the UI an empty gene input produces a request body whose
`filters` field is absent. -/
theorem empty_filter_matches_all (r : VariantRecord) (op : BoolOp) (projectId : String) :
    (∃ c, compileFilter none = .ok c ∧ c.query.matches r = true ∧ c.pred r = true) ∧
    (∃ c, compileFilter (some (.mk op [] [])) = .ok c ∧
      c.query.matches r = true ∧ c.pred r = true) ∧
    (runQueryBody projectId "").filters = none := by
  refine ⟨⟨⟨.matchAll, fun _ => true⟩, rfl, rfl, rfl⟩,
    ⟨⟨compileGroup (.mk op [] []), fun r => groupPred (.mk op [] []) r⟩, ?_, ?_, ?_⟩, rfl⟩
  · rfl
  · rfl
  · cases op <;> rfl

/-- C9: Filter wire-format conformance — for a non-empty gene input,
`runQuery` builds exactly the documented AND/term filter on
`csq.symbol.keyword`, and every filter the front-end sends conforms to the
`{op, clauses, groups}` wire shape. -/
theorem filter_wire_format (projectId gene : String) (h : gene ≠ "") :
    (runQueryBody projectId gene).filters
      = some (.mk "AND" [⟨"csq.symbol.keyword", "term", gene⟩] []) ∧
    (∀ w, (runQueryBody projectId gene).filters = some w → wireConforms w = true) ∧
    (runQueryBody projectId gene).project_id = projectId ∧
    (runQueryBody projectId gene).page = ⟨50⟩ := by
  have hfil : (runQueryBody projectId gene).filters
      = some (.mk "AND" [⟨"csq.symbol.keyword", "term", gene⟩] []) := by
    simp only [runQueryBody]
    rw [if_neg h]
  refine ⟨hfil, ?_, rfl, rfl⟩
  intro w hw
  rw [hfil] at hw
  cases hw
  rfl

/-- Witness for C9 at the gene input BRCA1. -/
theorem filter_wire_format_witness :
    ("BRCA1" : String) ≠ "" ∧
    ((runQueryBody "demo" "BRCA1").filters
      = some (.mk "AND" [⟨"csq.symbol.keyword", "term", "BRCA1"⟩] []) ∧
    (∀ w, (runQueryBody "demo" "BRCA1").filters = some w → wireConforms w = true) ∧
    (runQueryBody "demo" "BRCA1").project_id = "demo" ∧
    (runQueryBody "demo" "BRCA1").page = ⟨50⟩) :=
  ⟨by decide, filter_wire_format "demo" "BRCA1" (by decide)⟩

/-- C10: Total handling of missing result items — `runQuery` displays the
body's `items` array when present, and the empty list when `items` is
absent or falsy; the handling is a total function (it never throws). -/
theorem items_field_total (xs : List UIItem) (j : ItemsField)
    (h : itemsTruthy j = false) :
    displayedItems (.jarr xs) = xs ∧ displayedItems j = [] := by
  constructor
  · rfl
  · simp [displayedItems, h]

/-- Witness for C10 at a null items field. -/
theorem items_field_total_witness :
    itemsTruthy .jnull = false ∧
    (displayedItems (.jarr []) = ([] : List UIItem) ∧ displayedItems .jnull = []) :=
  ⟨rfl, items_field_total [] .jnull rfl⟩

/-- C2: Pagination completeness — for a static dataset and a Query Request
with a fixed positive page size, every page is the corresponding slice of
the stably ordered match list, the concatenation of all pages reproduces
that ordered match list exactly (no page repeats or skips a record), and
the ordered match list is a permutation of the set of matching records. -/
theorem pagination_complete (ds : List VariantRecord) (pid : String)
    (f : Option FilterGroup) (sz : Nat) (c : CompiledFilter)
    (hc : compileFilter f = .ok c) (hsz : 0 < sz) :
    (∀ i, queryExec ds ⟨pid, f, sz, i⟩ =
      .ok ⟨pageSlice (orderedMatches ds pid c.query) (effPageSize sz) i,
           (queryMatches ds pid c.query).length⟩) ∧
    (allPages (orderedMatches ds pid c.query) (effPageSize sz)).flatten
      = orderedMatches ds pid c.query ∧
    List.Perm (orderedMatches ds pid c.query) (queryMatches ds pid c.query) := by
  refine ⟨?_, ?_, ?_⟩
  · intro i
    simp only [queryExec, hc]
  · have hk : 0 < effPageSize sz := by
      unfold effPageSize maxPageSize
      omega
    exact join_allPages _ hk _
  · exact sortLE_perm coordLE (queryMatches ds pid c.query)

/-- Witness for C2 at a one-record dataset, the absent filter and page
size 1. -/
theorem pagination_complete_witness :
    compileFilter none = .ok ⟨.matchAll, fun _ => true⟩ ∧ 0 < 1 ∧
    ((∀ i, queryExec [⟨"demo", "1", 100, "A", "T", "2024-01", [], []⟩] ⟨"demo", none, 1, i⟩ =
      .ok ⟨pageSlice (orderedMatches [⟨"demo", "1", 100, "A", "T", "2024-01", [], []⟩] "demo"
             (CompiledFilter.mk .matchAll (fun _ => true)).query) (effPageSize 1) i,
           (queryMatches [⟨"demo", "1", 100, "A", "T", "2024-01", [], []⟩] "demo"
             (CompiledFilter.mk .matchAll (fun _ => true)).query).length⟩) ∧
    (allPages (orderedMatches [⟨"demo", "1", 100, "A", "T", "2024-01", [], []⟩] "demo"
        (CompiledFilter.mk .matchAll (fun _ => true)).query) (effPageSize 1)).flatten
      = orderedMatches [⟨"demo", "1", 100, "A", "T", "2024-01", [], []⟩] "demo"
          (CompiledFilter.mk .matchAll (fun _ => true)).query ∧
    List.Perm (orderedMatches [⟨"demo", "1", 100, "A", "T", "2024-01", [], []⟩] "demo"
        (CompiledFilter.mk .matchAll (fun _ => true)).query)
      (queryMatches [⟨"demo", "1", 100, "A", "T", "2024-01", [], []⟩] "demo"
        (CompiledFilter.mk .matchAll (fun _ => true)).query)) :=
  ⟨rfl, by decide,
   pagination_complete [⟨"demo", "1", 100, "A", "T", "2024-01", [], []⟩] "demo" none 1
     ⟨.matchAll, fun _ => true⟩ rfl (by decide)⟩

/-- C5: Export/query agreement — for every Query Request whose filter
compiles, the export stream (columnar-predicate scan, bypassing pagination)
has exactly as many rows as the total-match count reported in the
`QueryResultPage` for the same request. -/
theorem export_query_agree (ds : List VariantRecord) (pid : String)
    (f : Option FilterGroup) (sz i : Nat) (c : CompiledFilter)
    (hc : compileFilter f = .ok c) :
    ∃ rows page,
      exportRows ds pid f = .ok rows ∧
      queryExec ds ⟨pid, f, sz, i⟩ = .ok page ∧
      rows.length = page.total := by
  refine ⟨ds.filter (fun r => decide (r.projectId = pid) && c.pred r),
    ⟨pageSlice (orderedMatches ds pid c.query) (effPageSize sz) i,
     (queryMatches ds pid c.query).length⟩, ?_, ?_, ?_⟩
  · simp only [exportRows, hc]
  · simp only [queryExec, hc]
  · show (ds.filter (fun r => decide (r.projectId = pid) && c.pred r)).length
      = (queryMatches ds pid c.query).length
    have heq : ds.filter (fun r => decide (r.projectId = pid) && c.pred r)
        = ds.filter (fun r => decide (r.projectId = pid) && c.query.matches r) := by
      apply List.filter_congr
      intro x hx
      rw [compiled_equiv f c hc x]
    rw [heq]
    rfl

/-- Witness for C5 at a one-record dataset and the absent filter. -/
theorem export_query_agree_witness :
    compileFilter none = .ok ⟨.matchAll, fun _ => true⟩ ∧
    ∃ rows page,
      exportRows [⟨"demo", "1", 100, "A", "T", "2024-01", [], []⟩] "demo" none = .ok rows ∧
      queryExec [⟨"demo", "1", 100, "A", "T", "2024-01", [], []⟩] ⟨"demo", none, 1, 0⟩ = .ok page ∧
      rows.length = page.total :=
  ⟨rfl,
   export_query_agree [⟨"demo", "1", 100, "A", "T", "2024-01", [], []⟩] "demo" none 1 0
     ⟨.matchAll, fun _ => true⟩ rfl⟩

/-- C4: Invalid filter rejection — a filter tree referencing an unknown
field or pairing an operator with an incompatible value type fails
compilation with an `InvalidFilter` error identifying an offending clause,
a tree deeper than the configured maximum fails with `FilterTooComplex`,
and in either case the query and export paths return the error rather than
any result (no silent ignoring or truncation, no backend evaluation). -/
theorem invalid_filter_rejected (g : FilterGroup)
    (h : ((allClauses g).any (fun c0 => !clauseValid c0) = true) ∨ maxFilterDepth < g.depth) :
    (∃ e, compileFilter (some g) = .error e) ∧
    (maxFilterDepth < g.depth → compileFilter (some g) = .error .filterTooComplex) ∧
    (g.depth ≤ maxFilterDepth →
      ∃ c0, c0 ∈ allClauses g ∧ clauseValid c0 = false ∧
        compileFilter (some g) = .error (.invalidFilter c0)) ∧
    (∀ ds pid sz i, ∃ e, queryExec ds ⟨pid, some g, sz, i⟩ = .error e) ∧
    (∀ ds pid, ∃ e, exportRows ds pid (some g) = .error e) := by
  have h2 : maxFilterDepth < g.depth → compileFilter (some g) = .error .filterTooComplex := by
    intro hd
    simp only [compileFilter, validateGroup]
    rw [if_pos hd]
  have h3 : g.depth ≤ maxFilterDepth →
      ∃ c0, c0 ∈ allClauses g ∧ clauseValid c0 = false ∧
        compileFilter (some g) = .error (.invalidFilter c0) := by
    intro hd
    have hbad : (allClauses g).any (fun c0 => !clauseValid c0) = true := by
      rcases h with hb | hb
      · exact hb
      · omega
    rcases List.any_eq_true.mp hbad with ⟨c0, hc0mem, hc0⟩
    have hc0f : clauseValid c0 = false := by simpa using hc0
    cases hfi : findInvalid g with
    | none =>
      have hall := findInvalid_none g hfi c0 hc0mem
      rw [hall] at hc0f
      cases hc0f
    | some c1 =>
      rcases findInvalid_some g c1 hfi with ⟨hm, hvv⟩
      refine ⟨c1, hm, hvv, ?_⟩
      simp only [compileFilter, validateGroup]
      rw [if_neg (by omega : ¬ maxFilterDepth < g.depth), hfi]
  have h1 : ∃ e, compileFilter (some g) = .error e := by
    rcases Nat.lt_or_ge maxFilterDepth g.depth with hd | hd
    · exact ⟨.filterTooComplex, h2 hd⟩
    · rcases h3 (by omega) with ⟨c0, _, _, hcf⟩
      exact ⟨.invalidFilter c0, hcf⟩
  rcases h1 with ⟨e, he⟩
  refine ⟨⟨e, he⟩, h2, h3, ?_, ?_⟩
  · intro ds pid sz i
    refine ⟨e, ?_⟩
    simp only [queryExec, he]
  · intro ds pid
    refine ⟨e, ?_⟩
    simp only [exportRows, he]

/-- Witness for C4 at a one-clause filter whose field is not whitelisted. -/
theorem invalid_filter_rejected_witness :
    ((allClauses (FilterGroup.mk .andOp [⟨"bogus", "term", .wstr "x"⟩] [])).any
        (fun c0 => !clauseValid c0) = true ∨
      maxFilterDepth < (FilterGroup.mk .andOp [⟨"bogus", "term", .wstr "x"⟩] []).depth) ∧
    ((∃ e, compileFilter (some (FilterGroup.mk .andOp [⟨"bogus", "term", .wstr "x"⟩] [])) = .error e) ∧
    (maxFilterDepth < (FilterGroup.mk .andOp [⟨"bogus", "term", .wstr "x"⟩] []).depth →
      compileFilter (some (FilterGroup.mk .andOp [⟨"bogus", "term", .wstr "x"⟩] []))
        = .error .filterTooComplex) ∧
    ((FilterGroup.mk .andOp [⟨"bogus", "term", .wstr "x"⟩] []).depth ≤ maxFilterDepth →
      ∃ c0, c0 ∈ allClauses (FilterGroup.mk .andOp [⟨"bogus", "term", .wstr "x"⟩] []) ∧
        clauseValid c0 = false ∧
        compileFilter (some (FilterGroup.mk .andOp [⟨"bogus", "term", .wstr "x"⟩] []))
          = .error (.invalidFilter c0)) ∧
    (∀ ds pid sz i, ∃ e,
      queryExec ds ⟨pid, some (FilterGroup.mk .andOp [⟨"bogus", "term", .wstr "x"⟩] []), sz, i⟩
        = .error e) ∧
    (∀ ds pid, ∃ e,
      exportRows ds pid (some (FilterGroup.mk .andOp [⟨"bogus", "term", .wstr "x"⟩] []))
        = .error e)) :=
  ⟨Or.inl (by decide),
   invalid_filter_rejected (FilterGroup.mk .andOp [⟨"bogus", "term", .wstr "x"⟩] [])
     (Or.inl (by decide))⟩

/-- C6: Facet count conservation — when the faceted field is present on
every record matching the filter scope, the facet counts sum to the
total-match count of the same scope (as also reported by the query path). -/
theorem facet_count_conservation (ds : List VariantRecord) (pid : String)
    (scope : Option FilterGroup) (fld : String) (c : CompiledFilter)
    (pairs : List (String × Nat))
    (hc : compileFilter scope = .ok c)
    (hf : facetRun ds pid scope fld = .ok pairs)
    (hp : ∀ r ∈ queryMatches ds pid c.query, (facetValue fld r).isSome = true) :
    (pairs.map Prod.snd).sum = (queryMatches ds pid c.query).length ∧
    (∀ sz i page, queryExec ds ⟨pid, scope, sz, i⟩ = .ok page →
      (pairs.map Prod.snd).sum = page.total) := by
  simp only [facetRun, hc] at hf
  by_cases he : facetEligible fld = true
  case neg =>
    rw [if_neg he] at hf
    cases hf
  case pos =>
  rw [if_pos he] at hf
  cases hf
  have hsum : ((sortLE facetPairLE
      (facetCounts ((queryMatches ds pid c.query).filterMap (facetValue fld)))).map Prod.snd).sum
      = (queryMatches ds pid c.query).length := by
    have hperm := sortLE_perm facetPairLE
      (facetCounts ((queryMatches ds pid c.query).filterMap (facetValue fld)))
    rw [(hperm.map Prod.snd).sum_eq]
    have h2 : (facetCounts ((queryMatches ds pid c.query).filterMap (facetValue fld))).map Prod.snd
        = ((queryMatches ds pid c.query).filterMap (facetValue fld)).dedup.map
            (fun v => ((queryMatches ds pid c.query).filterMap (facetValue fld)).count v) := by
      unfold facetCounts
      rw [List.map_map]
      rfl
    rw [h2, List.sum_map_count_dedup_eq_length]
    exact length_filterMap_of_isSome _ _ hp
  constructor
  · exact hsum
  · intro sz i page hq
    simp only [queryExec, hc] at hq
    cases hq
    exact hsum

/-- Witness for C6: one matching record faceted on its impact class. -/
theorem facet_count_conservation_witness :
    compileFilter none = .ok ⟨.matchAll, fun _ => true⟩ ∧
    facetRun [⟨"demo", "1", 100, "A", "T", "2024-01",
        [⟨"BRCA1", "missense_variant", "MODERATE", "tx1"⟩], []⟩] "demo" none "csq.impact"
      = .ok [("MODERATE", 1)] ∧
    (∀ r ∈ queryMatches [⟨"demo", "1", 100, "A", "T", "2024-01",
        [⟨"BRCA1", "missense_variant", "MODERATE", "tx1"⟩], []⟩] "demo"
        (CompiledFilter.mk .matchAll (fun _ => true)).query,
      (facetValue "csq.impact" r).isSome = true) ∧
    (([("MODERATE", 1)].map Prod.snd).sum
      = (queryMatches [⟨"demo", "1", 100, "A", "T", "2024-01",
          [⟨"BRCA1", "missense_variant", "MODERATE", "tx1"⟩], []⟩] "demo"
          (CompiledFilter.mk .matchAll (fun _ => true)).query).length ∧
    (∀ sz i page, queryExec [⟨"demo", "1", 100, "A", "T", "2024-01",
          [⟨"BRCA1", "missense_variant", "MODERATE", "tx1"⟩], []⟩] ⟨"demo", none, sz, i⟩ = .ok page →
      (([("MODERATE", 1)] : List (String × Nat)).map Prod.snd).sum = page.total)) :=
  ⟨rfl, rfl, by decide,
   facet_count_conservation [⟨"demo", "1", 100, "A", "T", "2024-01",
       [⟨"BRCA1", "missense_variant", "MODERATE", "tx1"⟩], []⟩] "demo" none "csq.impact"
     ⟨.matchAll, fun _ => true⟩ [("MODERATE", 1)] rfl rfl (by decide)⟩

/-- C7: Malformed record isolation — when a batch contains exactly one
record with no parseable coordinates or alleles, that record is skipped and
counted while every other record is normalized and lands, by identity, in
its partition; the malformed record never aborts the batch. -/
theorem malformed_record_isolated (s : Stores) (pid : String) (batch : List RawRecord)
    (h : skippedCount pid batch = 1) :
    ingestedCount pid batch + 1 = batch.length ∧
    (∀ raw ∈ batch, ∀ v, normalizeRecord pid raw = some v →
      v ∈ normalizedBatch pid batch ∧
      hasIdentity ((ingestStores s pid batch).parts (partitionKey v)) v = true) := by
  constructor
  · have hlen := length_filterMap_add_filter_isNone (normalizeRecord pid) batch
    unfold ingestedCount normalizedBatch
    unfold skippedCount at h
    omega
  · intro raw hraw v hv
    have hmem : v ∈ normalizedBatch pid batch :=
      List.mem_filterMap.mpr ⟨raw, hraw, hv⟩
    refine ⟨hmem, ?_⟩
    simp only [ingestStores]
    have hcond : (normalizedBatch pid batch).any
        (fun r => decide (partitionKey r = partitionKey v)) = true :=
      List.any_eq_true.mpr ⟨v, hmem, by simp⟩
    rw [if_pos hcond]
    apply hasIdentity_dedupe
    exact List.mem_filter.mpr ⟨hmem, by simp⟩

/-- Witness for C7: a batch of two records, one of which has no parseable
chromosome. -/
theorem malformed_record_isolated_witness :
    skippedCount "demo"
      [⟨none, some 100, some "A", some "T", "2024-01", [], []⟩,
       ⟨some "1", some 100, some "A", some "T", "2024-01", [], []⟩] = 1 ∧
    (ingestedCount "demo"
      [⟨none, some 100, some "A", some "T", "2024-01", [], []⟩,
       ⟨some "1", some 100, some "A", some "T", "2024-01", [], []⟩] + 1
      = ([⟨none, some 100, some "A", some "T", "2024-01", [], []⟩,
          ⟨some "1", some 100, some "A", some "T", "2024-01", [], []⟩] : List RawRecord).length ∧
    (∀ raw ∈ ([⟨none, some 100, some "A", some "T", "2024-01", [], []⟩,
        ⟨some "1", some 100, some "A", some "T", "2024-01", [], []⟩] : List RawRecord),
      ∀ v, normalizeRecord "demo" raw = some v →
      v ∈ normalizedBatch "demo"
        [⟨none, some 100, some "A", some "T", "2024-01", [], []⟩,
         ⟨some "1", some 100, some "A", some "T", "2024-01", [], []⟩] ∧
      hasIdentity ((ingestStores ⟨fun _ => [], fun _ => none⟩ "demo"
        [⟨none, some 100, some "A", some "T", "2024-01", [], []⟩,
         ⟨some "1", some 100, some "A", some "T", "2024-01", [], []⟩]).parts
          (partitionKey v)) v = true)) :=
  ⟨rfl,
   malformed_record_isolated ⟨fun _ => [], fun _ => none⟩ "demo"
     [⟨none, some 100, some "A", some "T", "2024-01", [], []⟩,
      ⟨some "1", some 100, some "A", some "T", "2024-01", [], []⟩] rfl⟩
